import Mathlib

/-!
Verification of the markdownlang language front-end and execution engine.

The development shallowly embeds the source files
`src/parser/mdast-to-program.js`, `src/interpreter/index.js`,
`src/interpreter/runtime.js` and `src/interpreter/evaluator.js`.

Modelling conventions:
* JavaScript numbers are modelled as exact integers (`Int`).  Results that
  are not representable that way (`NaN`, infinities, fractional division
  results) are collapsed into the marker value `Value.nan`.  No claim under
  verification exercises such a result.
* JavaScript `undefined` is `Value.undef` and `null` is `Value.vnull`.
* Strings are manipulated through their character lists so that every
  definition evaluates inside the kernel.
* The interpreter is fuelled: every recursive call consumes one unit of
  fuel and exhaustion is reported as the distinguished error `Err.fuel`,
  never confused with a genuine runtime error.
* File-system access (`loadExternalProgram`) is represented by an
  environment `String → Option Program` mapping an external-file reference
  to the parsed program it denotes.
-/

/-- Runtime values: JavaScript primitive values as used by the interpreter.
`nan` is the collapsed image of the non-finite / non-integral numbers. -/
inductive Value where
  | undef
  | vnull
  | num (n : Int)
  | str (s : String)
  | bool (b : Bool)
  | nan
  deriving DecidableEq, Repr

/-- Errors thrown by the interpreter and evaluator.  Each constructor
corresponds to one `throw new Error(...)` site of the source (quoting of
names inside the rendered messages is dropped); `fuel` marks fuel
exhaustion of the embedded interpreter and corresponds to no source
behaviour. -/
inductive Err where
  | fuel
  | entryNotFound (name : String)
  | functionNotFound (name : String)
  | functionNotFoundIn (name file : String)
  | fileNotFound (file : String)
  | unknownOperator (op : String)
  | unknownUnaryOperator (op : String)
  | unknownCompoundOperator (op : String)
  | callExpressionsNotSupported (callee : String)
  | memberOfNullOrUndefined
  deriving DecidableEq, Repr

/-- Render an error the way the source interpolates it into an `Error`
message (quotes around interpolated names are dropped). -/
def Err.message : Err → String
  | .fuel => "out of fuel"
  | .entryNotFound n => "Entry function " ++ n ++ " not found"
  | .functionNotFound n => "Function " ++ n ++ " not found"
  | .functionNotFoundIn n f => "Function " ++ n ++ " not found in " ++ f
  | .fileNotFound f => "External file " ++ f ++ " not found"
  | .unknownOperator op => "Unknown operator: " ++ op
  | .unknownUnaryOperator op => "Unknown unary operator: " ++ op
  | .unknownCompoundOperator op => "Unknown compound operator: " ++ op
  | .callExpressionsNotSupported c => "Call expressions not supported: " ++ c
  | .memberOfNullOrUndefined => "Cannot read properties of null or undefined"

/-- Whitespace test used for `String.prototype.trim` and for the regex
class `\s` (restricted to the common ASCII whitespace characters; the
exotic Unicode space characters are not exercised by any claim). -/
def isSpaceChar (c : Char) : Bool :=
  c = ' ' || c = '\t' || c = '\n' || c = '\r' || c = '\x0b' || c = '\x0c'

/-- Character-list version of `String.prototype.trim`. -/
def trimChars (cs : List Char) : List Char :=
  ((cs.dropWhile isSpaceChar).reverse.dropWhile isSpaceChar).reverse

/-- JavaScript `String.prototype.trim`, evaluated through character lists
so that it reduces inside the kernel. -/
def jsTrim (s : String) : String :=
  String.mk (trimChars s.data)

/-- Decimal digits of a natural number (little helper for number →
string conversion; the fuel argument strictly bounds the digit count and
`n + 1` always suffices). -/
def natToCharsAux : Nat → Nat → List Char
  | 0, _ => []
  | f + 1, n =>
    if n = 0 then []
    else natToCharsAux f (n / 10) ++ [Char.ofNat ('0'.toNat + n % 10)]

/-- Decimal rendering of a natural number. -/
def natToString (n : Nat) : String :=
  if n = 0 then "0" else String.mk (natToCharsAux (n + 1) n)

/-- Decimal rendering of an integer, as JavaScript renders integral
numbers. -/
def intToString (n : Int) : String :=
  if n < 0 then "-" ++ natToString n.natAbs else natToString n.natAbs

/-- JavaScript `String(value)` for the modelled values. -/
def jsToString : Value → String
  | .undef => "undefined"
  | .vnull => "null"
  | .num n => intToString n
  | .str s => s
  | .bool true => "true"
  | .bool false => "false"
  | .nan => "NaN"

/-- Value of a list of decimal digit characters. -/
def digitsToNat (cs : List Char) : Nat :=
  cs.foldl (fun acc c => acc * 10 + (c.toNat - '0'.toNat)) 0

/-- Numeric value of a trimmed non-empty character sequence, JavaScript
`Number(...)` style: an optional sign followed by decimal digits.
Fractional, hexadecimal and exponent literals are outside the model (no
claim exercises them) and yield `none`, i.e. `NaN`. -/
def parseSignedDigits (cs : List Char) : Option Int :=
  match cs with
  | '-' :: rest =>
    if rest ≠ [] ∧ rest.all Char.isDigit then some (-(digitsToNat rest : Int)) else none
  | '+' :: rest =>
    if rest ≠ [] ∧ rest.all Char.isDigit then some (digitsToNat rest : Int) else none
  | _ =>
    if cs ≠ [] ∧ cs.all Char.isDigit then some (digitsToNat cs : Int) else none

/-- JavaScript `ToNumber` on the modelled values; `none` stands for `NaN`. -/
def toNumber : Value → Option Int
  | .undef => none
  | .vnull => some 0
  | .num n => some n
  | .bool true => some 1
  | .bool false => some 0
  | .nan => none
  | .str s =>
    let t := trimChars s.data
    if t = [] then some 0 else parseSignedDigits t

/-- JavaScript truthiness of the modelled values. -/
def toBool : Value → Bool
  | .undef => false
  | .vnull => false
  | .num n => n ≠ 0
  | .str s => s ≠ ""
  | .bool b => b
  | .nan => false

/-- JavaScript `+`: string concatenation as soon as one operand is a
string, numeric addition otherwise. -/
def jsAdd (l r : Value) : Value :=
  match l, r with
  | .str a, b => .str (a ++ jsToString b)
  | a, .str b => .str (jsToString a ++ b)
  | a, b =>
    match toNumber a, toNumber b with
    | some x, some y => .num (x + y)
    | _, _ => .nan

/-- JavaScript `-` on the modelled values. -/
def jsSub (l r : Value) : Value :=
  match toNumber l, toNumber r with
  | some x, some y => .num (x - y)
  | _, _ => .nan

/-- JavaScript `*` on the modelled values. -/
def jsMul (l r : Value) : Value :=
  match toNumber l, toNumber r with
  | some x, some y => .num (x * y)
  | _, _ => .nan

/-- JavaScript `/` on the modelled values.  Exact where the quotient is an
integer; division by zero and fractional quotients fall outside the
integer model and collapse to `nan` (no claim exercises them). -/
def jsDiv (l r : Value) : Value :=
  match toNumber l, toNumber r with
  | some x, some y => if y ≠ 0 ∧ y ∣ x then .num (x / y) else .nan
  | _, _ => .nan

/-- JavaScript `%` (remainder truncating towards zero) on the modelled
values. -/
def jsMod (l r : Value) : Value :=
  match toNumber l, toNumber r with
  | some x, some y => if y ≠ 0 then .num (Int.tmod x y) else .nan
  | _, _ => .nan

/-- JavaScript strict equality `===` on the modelled values. -/
def jsStrictEq (l r : Value) : Bool :=
  match l, r with
  | .undef, .undef => true
  | .vnull, .vnull => true
  | .num a, .num b => a = b
  | .str a, .str b => a = b
  | .bool a, .bool b => a = b
  | _, _ => false

/-- JavaScript loose equality `==` on the modelled values: `undefined`
and `null` equate with each other only; booleans coerce to numbers;
a number and a string compare numerically. -/
def jsLooseEq (l r : Value) : Bool :=
  match l, r with
  | .undef, .undef => true
  | .undef, .vnull => true
  | .vnull, .undef => true
  | .vnull, .vnull => true
  | .num a, .num b => a = b
  | .str a, .str b => a = b
  | .bool a, b => jsLooseEqNumSide (some (if a then 1 else 0)) b
  | a, .bool b => jsLooseEqNumSide (some (if b then 1 else 0)) a
  | .num a, .str s => toNumber (.str s) = some a
  | .str s, .num a => toNumber (.str s) = some a
  | _, _ => false
where
  /-- Compare an already-coerced numeric side against another value. -/
  jsLooseEqNumSide : Option Int → Value → Bool
  | some a, .num b => a = b
  | some a, .str s => toNumber (.str s) = some a
  | some a, .bool b => a = (if b then 1 else 0)
  | _, _ => false

/-- JavaScript `<`: lexicographic when both operands are strings,
numeric otherwise (false as soon as a side is `NaN`). -/
def jsLess (l r : Value) : Bool :=
  match l, r with
  | .str a, .str b => a < b
  | a, b =>
    match toNumber a, toNumber b with
    | some x, some y => x < y
    | _, _ => false

/-- JavaScript `<=` under the same conventions as `jsLess`. -/
def jsLe (l r : Value) : Bool :=
  match l, r with
  | .str a, .str b => a ≤ b
  | a, b =>
    match toNumber a, toNumber b with
    | some x, some y => x ≤ y
    | _, _ => false

/-- Binary operator dispatch of `evaluateBinaryExpression`
(src/interpreter/evaluator.js): both operands are already evaluated, and
an unknown operator string throws. -/
def jsBinop (op : String) (l r : Value) : Except Err Value :=
  match op with
  | "+" => .ok (jsAdd l r)
  | "-" => .ok (jsSub l r)
  | "*" => .ok (jsMul l r)
  | "/" => .ok (jsDiv l r)
  | "%" => .ok (jsMod l r)
  | "==" => .ok (.bool (jsLooseEq l r))
  | "!=" => .ok (.bool (!jsLooseEq l r))
  | "<" => .ok (.bool (jsLess l r))
  | ">" => .ok (.bool (jsLess r l))
  | "<=" => .ok (.bool (jsLe l r))
  | ">=" => .ok (.bool (jsLe r l))
  | "===" => .ok (.bool (jsStrictEq l r))
  | "!==" => .ok (.bool (!jsStrictEq l r))
  | "&&" => .ok (if toBool l then r else l)
  | "||" => .ok (if toBool l then l else r)
  | _ => .error (.unknownOperator op)

/-- Unary operator dispatch of `evaluateUnaryExpression`
(src/interpreter/evaluator.js). -/
def jsUnop (op : String) (v : Value) : Except Err Value :=
  match op with
  | "!" => .ok (.bool (!toBool v))
  | "-" =>
    (match toNumber v with
     | some x => .ok (.num (-x))
     | none => .ok .nan)
  | "+" =>
    (match toNumber v with
     | some x => .ok (.num x)
     | none => .ok .nan)
  | _ => .error (.unknownUnaryOperator op)

/-- Numeric index encoded as a canonical digit string (JavaScript turns
`s["3"]` into the same property as `s[3]`). -/
def parseIndexKey (s : String) : Option Nat :=
  if s.data ≠ [] ∧ s.data.all Char.isDigit then some (digitsToNat s.data) else none

/-- Indexing a string primitive: one-character string inside bounds,
`undefined` outside. -/
def stringIndex (s : String) (i : Int) : Value :=
  if h : 0 ≤ i ∧ i.toNat < s.data.length then
    .str (String.mk [s.data.get ⟨i.toNat, h.2⟩])
  else Value.undef

/-- Property lookup of `evaluateMemberExpression`
(src/interpreter/evaluator.js): only string indexing and `length` are
meaningful; accessing a property of `undefined` or `null` is the host
`TypeError`; every other lookup yields `undefined` (method extraction is
outside the model and not exercised). -/
def jsMemberLookup (obj key : Value) : Except Err Value :=
  match obj with
  | .undef => .error .memberOfNullOrUndefined
  | .vnull => .error .memberOfNullOrUndefined
  | .str s =>
    (match key with
     | .num i => .ok (stringIndex s i)
     | .str k =>
       if k = "length" then .ok (.num s.data.length)
       else
         (match parseIndexKey k with
          | some i => .ok (stringIndex s (i : Int))
          | none => .ok .undef)
     | _ => .ok .undef)
  | _ => .ok .undef

mutual
/-- Expression AST (the tagged nodes consumed by `evaluate` in
src/interpreter/evaluator.js).  `Literal` carries a string or number
value; the `computed` flag of `MemberExpression` is split into the two
constructors `memberComputed` and `memberNamed`. -/
inductive Expr where
  | lit (v : Value)
  | ident (name : String)
  | bin (op : String) (l r : Expr)
  | un (op : String) (arg : Expr)
  | template (parts : List TPart)
  | memberComputed (obj : Expr) (prop : Expr)
  | memberNamed (obj : Expr) (propName : String)
  | callExpr (calleeName : String)
/-- One part of a `TemplateLiteral` node: literal text or an embedded
expression. -/
inductive TPart where
  | literal (s : String)
  | expr (e : Expr)
end

/-- Statement AST (the tagged nodes consumed by `executeStatement` in
src/interpreter/index.js). -/
inductive Stmt where
  | print (e : Expr)
  | assign (target : String) (operator : Option String) (value : Expr)
  | callStmt (functionName : String) (externalFile : Option String) (args : List Expr)
  | conditional (condition : Expr) (body : List Stmt)
  | breakStmt
  | input (target : String)

/-- A FunctionDeclaration: name, ordered parameters, ordered body. -/
structure FunctionDecl where
  name : String
  parameters : List String
  body : List Stmt

/-- A Program: the mapping from function name to declaration, kept as an
insertion-ordered association list with unique keys, exactly like the
plain JavaScript object `program.functions`.  The `_baseDir` field is
absorbed into the external-resolution environment. -/
structure Program where
  functions : List (String × FunctionDecl)

/-- Association-list lookup (plain-object property read). -/
def alookup {α : Type} : List (String × α) → String → Option α
  | [], _ => none
  | (k, v) :: rest, x => if k = x then some v else alookup rest x

/-- Association-list write (plain-object property write): overwrite in
place when the key exists, append otherwise. -/
def upsertA {α : Type} : List (String × α) → String → α → List (String × α)
  | [], k, v => [(k, v)]
  | (k', v') :: rest, k, v =>
    if k' = k then (k, v) :: rest else (k', v') :: upsertA rest k v

/-- Function lookup in a program (`program.functions[name]`). -/
def Program.lookupFn (p : Program) (n : String) : Option FunctionDecl :=
  alookup p.functions n

/-- One call frame: function name and its variable bindings
(src/interpreter/runtime.js `pushFrame`). -/
structure Frame where
  functionName : String
  vars : List (String × Value)
  deriving DecidableEq, Repr

/-- The execution state of src/interpreter/runtime.js.  The head of
`callStack` is the current frame (the source keeps the current frame at
the end of the array; the orientation is reversed here, which is
observationally identical).  The synchronous mode is modelled: no
`printHandler` and no `inputReader` are attached. -/
structure Runtime where
  callStack : List Frame
  output : List Value
  breakFlag : Bool
  inputBuffer : List Value
  inputIndex : Nat
  deriving DecidableEq, Repr

/-- A fresh runtime with the given input buffer (`new Runtime()` followed
by `setInput`). -/
def Runtime.init (inputs : List Value) : Runtime :=
  { callStack := [], output := [], breakFlag := false
    inputBuffer := inputs, inputIndex := 0 }

/-- Push a call frame (`Runtime.pushFrame`). -/
def Runtime.pushFrame (rt : Runtime) (functionName : String)
    (args : List (String × Value)) : Runtime :=
  { rt with callStack := { functionName := functionName, vars := args } :: rt.callStack }

/-- Pop the current call frame (`Runtime.popFrame`; the popped frame
itself is never used by the interpreter). -/
def Runtime.popFrame (rt : Runtime) : Runtime :=
  { rt with callStack := rt.callStack.tail }

/-- The current call frame (`Runtime.currentFrame`). -/
def Runtime.currentFrame (rt : Runtime) : Option Frame :=
  rt.callStack.head?

/-- Read a variable from the current frame only
(`Runtime.getVariable`): missing frame or missing key give `undefined`. -/
def Runtime.getVariable (rt : Runtime) (name : String) : Value :=
  match rt.currentFrame with
  | some frame =>
    (match alookup frame.vars name with
     | some v => v
     | none => .undef)
  | none => Value.undef

/-- Write a variable in the current frame only (`Runtime.setVariable`);
with an empty stack the write is dropped, as in the source. -/
def Runtime.setVariable (rt : Runtime) (name : String) (value : Value) : Runtime :=
  match rt.callStack with
  | [] => rt
  | frame :: rest =>
    { rt with callStack := { frame with vars := upsertA frame.vars name value } :: rest }

/-- Append a printed value to the output (`Runtime.print`; the streaming
`printHandler` of the interactive mode only duplicates this value and is
not modelled). -/
def Runtime.print (rt : Runtime) (v : Value) : Runtime :=
  { rt with output := rt.output ++ [v] }

/-- Read the next buffered input (`Runtime.readInput`): `null` when the
buffer is exhausted. -/
def Runtime.readInput (rt : Runtime) : Value × Runtime :=
  if rt.inputIndex < rt.inputBuffer.length then
    (rt.inputBuffer.getD rt.inputIndex .vnull, { rt with inputIndex := rt.inputIndex + 1 })
  else (.vnull, rt)

/-- Set the break flag (`Runtime.setBreak`).  Note that the interpreter
never calls `shouldBreak`/`clearBreak`, so nothing resets the flag. -/
def Runtime.setBreak (rt : Runtime) : Runtime :=
  { rt with breakFlag := true }

mutual
/-- The expression evaluator `evaluate` (src/interpreter/evaluator.js):
pure in the runtime except for reading variables of the current frame;
`CallExpression` nodes always throw. -/
def evalE : Expr → Runtime → Except Err Value
  | .lit v, _ => .ok v
  | .ident name, rt => .ok (rt.getVariable name)
  | .bin op l r, rt =>
    (match evalE l rt with
     | .error e => .error e
     | .ok lv =>
       match evalE r rt with
       | .error e => .error e
       | .ok rv => jsBinop op lv rv)
  | .un op a, rt =>
    (match evalE a rt with
     | .error e => .error e
     | .ok v => jsUnop op v)
  | .template parts, rt =>
    (match evalParts parts rt with
     | .error e => .error e
     | .ok s => .ok (.str s))
  | .memberComputed obj prop, rt =>
    (match evalE obj rt with
     | .error e => .error e
     | .ok ov =>
       match evalE prop rt with
       | .error e => .error e
       | .ok pv => jsMemberLookup ov pv)
  | .memberNamed obj propName, rt =>
    (match evalE obj rt with
     | .error e => .error e
     | .ok ov => jsMemberLookup ov (.str propName))
  | .callExpr callee, _ => .error (.callExpressionsNotSupported callee)
/-- `evaluateTemplateLiteral`: concatenate literal parts and stringified
embedded-expression values left to right. -/
def evalParts : List TPart → Runtime → Except Err String
  | [], _ => .ok ""
  | .literal s :: rest, rt =>
    (match evalParts rest rt with
     | .error e => .error e
     | .ok r => .ok (s ++ r))
  | .expr e :: rest, rt =>
    (match evalE e rt with
     | .error er => .error er
     | .ok v =>
       match evalParts rest rt with
       | .error er => .error er
       | .ok r => .ok (jsToString v ++ r))
end

/-- Evaluate the argument expressions of a call in order
(`statement.arguments.map(arg => evaluate(arg, runtime))`). -/
def evalArgs : List Expr → Runtime → Except Err (List Value)
  | [], _ => .ok []
  | e :: rest, rt =>
    match evalE e rt with
    | .error er => .error er
    | .ok v =>
      match evalArgs rest rt with
      | .error er => .error er
      | .ok vs => .ok (v :: vs)

/-- A pending tail call (the `TAIL_CALL` thunk of src/interpreter/index.js;
its `runtime` field is threaded separately here because the embedding is
state-passing). -/
structure TailCall where
  program : Program
  func : FunctionDecl
  args : List Value

/-- `getDefaultValue` (src/interpreter/index.js): default starting value
of a compound assignment whose target was never set, chosen by the
`typeof` of the evaluated right-hand side. -/
def getDefaultValue : Value → Value
  | .str _ => .str ""
  | .num _ => .num 0
  | .nan => .num 0
  | _ => Value.undef

/-- `executeAssignment` (src/interpreter/index.js): evaluate the
right-hand side, then either compound-update (with `??`-defaulting of the
current value) or plainly replace the binding. -/
def executeAssignment (target : String) (operator : Option String) (value : Expr)
    (rt : Runtime) : Except Err Runtime :=
  match evalE value rt with
  | .error e => .error e
  | .ok newValue =>
    match operator with
    | none => .ok (rt.setVariable target newValue)
    | some op =>
      let currentValue :=
        match rt.getVariable target with
        | .undef => getDefaultValue newValue
        | .vnull => getDefaultValue newValue
        | v => v
      match op with
      | "+" => .ok (rt.setVariable target (jsAdd currentValue newValue))
      | "-" => .ok (rt.setVariable target (jsSub currentValue newValue))
      | "*" => .ok (rt.setVariable target (jsMul currentValue newValue))
      | "/" => .ok (rt.setVariable target (jsDiv currentValue newValue))
      | _ => .error (.unknownCompoundOperator op)

/-- `executeInput` (synchronous form): read the next buffered input and
bind it to the target variable. -/
def executeInput (target : String) (rt : Runtime) : Runtime :=
  let (v, rt') := rt.readInput
  rt'.setVariable target v

/-- `executePrint`: evaluate the expression and append it to the output. -/
def executePrint (e : Expr) (rt : Runtime) : Except Err Runtime :=
  match evalE e rt with
  | .error er => .error er
  | .ok v => .ok (rt.print v)

/-- Callee resolution of `executeFunctionCall` (src/interpreter/index.js
lines 172-190): an external reference is resolved through the environment
standing for `loadExternalProgram`, a local reference through the current
program; a missing function name throws the lookup error of the source. -/
def resolveCallee (env : String → Option Program) (program : Program)
    (functionName : String) (externalFile : Option String) :
    Except Err (Program × FunctionDecl) :=
  match externalFile with
  | some file =>
    (match env file with
     | none => .error (.fileNotFound file)
     | some externalProgram =>
       match externalProgram.lookupFn functionName with
       | none => .error (.functionNotFoundIn functionName file)
       | some func => .ok (externalProgram, func))
  | none =>
    match program.lookupFn functionName with
    | none => .error (.functionNotFound functionName)
    | some func => .ok (program, func)

/-- The argument-binding loop of `executeFunction` (and, identically, of
`executeFunctionAsync`): `argBindings[parameters[i]] = args[i]` for every
declared parameter index, with missing arguments read as `undefined` and
surplus arguments never touched. -/
def mkBindingsAux (acc : List (String × Value)) :
    List String → List Value → List (String × Value)
  | [], _ => acc
  | p :: ps, [] => mkBindingsAux (upsertA acc p .undef) ps []
  | p :: ps, a :: rest => mkBindingsAux (upsertA acc p a) ps rest

/-- Bindings of a fresh frame: exactly the declared parameters, mapped
positionally to the evaluated arguments. -/
def mkBindings (params : List String) (args : List Value) : List (String × Value) :=
  mkBindingsAux [] params args

mutual
/-- The trampoline loop shared by `interpret` and the inline-call path
(src/interpreter/index.js lines 47-49 and 201-204): run functions while
they keep returning `TAIL_CALL` thunks. -/
def trampoline : Nat → (String → Option Program) → Program → FunctionDecl →
    List Value → Runtime → Except Err Runtime
  | 0, _, _, _, _, _ => .error .fuel
  | f + 1, env, program, func, args, rt =>
    match executeFunction f env program func args rt with
    | .error e => .error e
    | .ok (none, rt') => .ok rt'
    | .ok (some tc, rt') => trampoline f env tc.program tc.func tc.args rt'

/-- `executeFunction`: build the argument bindings, push a frame, run the
body, pop the frame, and hand any pending tail call back to the caller. -/
def executeFunction : Nat → (String → Option Program) → Program → FunctionDecl →
    List Value → Runtime → Except Err (Option TailCall × Runtime)
  | 0, _, _, _, _, _ => .error .fuel
  | f + 1, env, program, func, args, rt =>
    let rt1 := rt.pushFrame func.name (mkBindings func.parameters args)
    match executeBlock f env program func.body rt1 with
    | .error e => .error e
    | .ok (r, rt2) => .ok (r, rt2.popFrame)

/-- `executeBlock`: run the statements in order, checking the break flag
before each one, passing `isLast` to exactly the final statement, and
returning a pending tail call immediately when one surfaces. -/
def executeBlock : Nat → (String → Option Program) → Program → List Stmt →
    Runtime → Except Err (Option TailCall × Runtime)
  | 0, _, _, _, _ => .error .fuel
  | f + 1, env, program, stmts, rt =>
    match stmts with
    | [] => .ok (none, rt)
    | s :: rest =>
      if rt.breakFlag then .ok (none, rt)
      else
        match executeStatement f env program s rt rest.isEmpty with
        | .error e => .error e
        | .ok (some tc, rt') => .ok (some tc, rt')
        | .ok (none, rt') => executeBlock f env program rest rt'

/-- `executeStatement`: dispatch on the statement tag.  The inductive
statement type has no unknown tag, so the `default: throw` arm of the
source cannot arise. -/
def executeStatement : Nat → (String → Option Program) → Program → Stmt →
    Runtime → Bool → Except Err (Option TailCall × Runtime)
  | 0, _, _, _, _, _ => .error .fuel
  | f + 1, env, program, stmt, rt, isLast =>
    match stmt with
    | .print e =>
      (match executePrint e rt with
       | .error er => .error er
       | .ok rt' => .ok (none, rt'))
    | .assign target op value =>
      (match executeAssignment target op value rt with
       | .error er => .error er
       | .ok rt' => .ok (none, rt'))
    | .callStmt functionName externalFile args =>
      executeFunctionCall f env program functionName externalFile args rt isLast
    | .conditional condition body =>
      executeConditional f env program condition body rt isLast
    | .breakStmt => .ok (none, rt.setBreak)
    | .input target => .ok (none, executeInput target rt)

/-- `executeFunctionCall`: resolve the callee, evaluate the arguments,
and either return a tail-call thunk (when this statement is the last of
its block) or run the callee inline through the trampoline. -/
def executeFunctionCall : Nat → (String → Option Program) → Program → String →
    Option String → List Expr → Runtime → Bool → Except Err (Option TailCall × Runtime)
  | 0, _, _, _, _, _, _, _ => .error .fuel
  | f + 1, env, program, functionName, externalFile, args, rt, isLast =>
    match resolveCallee env program functionName externalFile with
    | .error e => .error e
    | .ok (targetProgram, func) =>
      match evalArgs args rt with
      | .error e => .error e
      | .ok argVals =>
        if isLast then .ok (some ⟨targetProgram, func, argVals⟩, rt)
        else
          match trampoline f env targetProgram func argVals rt with
          | .error e => .error e
          | .ok rt' => .ok (none, rt')

/-- `executeConditional`: evaluate the guard and, when truthy, run the
body block — whose own result (tail call included) is returned to the
caller.  Note that the `isLast` parameter of the source is received but
never used. -/
def executeConditional : Nat → (String → Option Program) → Program → Expr →
    List Stmt → Runtime → Bool → Except Err (Option TailCall × Runtime)
  | 0, _, _, _, _, _, _ => .error .fuel
  | f + 1, env, program, condition, body, rt, _isLast =>
    match evalE condition rt with
    | .error e => .error e
    | .ok v =>
      if toBool v then executeBlock f env program body rt
      else .ok (none, rt)
end

/-- `interpret` (src/interpreter/index.js): build a fresh runtime with
the given input buffer, look up the entry function, run the trampoline
and return the accumulated output. -/
def interpret (fuel : Nat) (env : String → Option Program) (program : Program)
    (entryPoint : String) (args : List Value) (inputs : List Value) :
    Except Err (List Value) :=
  let rt := Runtime.init inputs
  match program.lookupFn entryPoint with
  | none => .error (.entryNotFound entryPoint)
  | some mainFunc =>
    match trampoline fuel env program mainFunc args rt with
    | .error e => .error e
    | .ok rt' => .ok rt'.output

/-- Decidable equality for `Except`, used to evaluate concrete runs. -/
instance {e a : Type} [DecidableEq e] [DecidableEq a] : DecidableEq (Except e a) := fun x y =>
  match x, y with
  | .ok u, .ok v => decidable_of_iff (u = v) (by simp)
  | .error u, .error v => decidable_of_iff (u = v) (by simp)
  | .ok _, .error _ => isFalse (by simp)
  | .error _, .ok _ => isFalse (by simp)

/-- Structural document tree (mdast) nodes as consumed by
`mdastToProgram` (src/parser/mdast-to-program.js).  Only the fields the
transform reads are carried: `value` for text-bearing nodes, `children`
elsewhere, `depth` for headings, `ordered` for lists, `url` for links. -/
inductive MNode where
  | text (value : String)
  | inlineCode (value : String)
  | heading (depth : Nat) (children : List MNode)
  | emphasis (children : List MNode)
  | strong (children : List MNode)
  | link (url : String) (children : List MNode)
  | list (ordered : Bool) (children : List MNode)
  | listItem (children : List MNode)
  | paragraph (children : List MNode)
  | blockquote (children : List MNode)
  | thematicBreak

/-- The `value` field of a node (empty for nodes without one). -/
def nodeValue : MNode → String
  | .text v => v
  | .inlineCode v => v
  | _ => ""

/-- The `children` field of a node (empty for leaves). -/
def nodeChildren : MNode → List MNode
  | .heading _ cs => cs
  | .emphasis cs => cs
  | .strong cs => cs
  | .link _ cs => cs
  | .list _ cs => cs
  | .listItem cs => cs
  | .paragraph cs => cs
  | .blockquote cs => cs
  | _ => []

mutual
/-- `extractText`: concatenate the node value with the recursively
extracted child texts, trimming at every level as the source does
(each case spells out `jsTrim (nodeValue n ++ extractTextList
(nodeChildren n))` for its constructor). -/
def extractText : MNode → String
  | .text v => jsTrim v
  | .inlineCode v => jsTrim v
  | .heading _ cs => jsTrim ("" ++ extractTextList cs)
  | .emphasis cs => jsTrim ("" ++ extractTextList cs)
  | .strong cs => jsTrim ("" ++ extractTextList cs)
  | .link _ cs => jsTrim ("" ++ extractTextList cs)
  | .list _ cs => jsTrim ("" ++ extractTextList cs)
  | .listItem cs => jsTrim ("" ++ extractTextList cs)
  | .paragraph cs => jsTrim ("" ++ extractTextList cs)
  | .blockquote cs => jsTrim ("" ++ extractTextList cs)
  | .thematicBreak => jsTrim ""
/-- Concatenation of the extracted texts of a child list. -/
def extractTextList : List MNode → String
  | [] => ""
  | c :: rest => extractText c ++ extractTextList rest
end

/-- `extractEmphasisText`: the extracted text of the first `emphasis`
child, or `none` (the source returns `null`). -/
def extractEmphasisText (n : MNode) : Option String :=
  go (nodeChildren n)
where
  /-- Scan the children for the first emphasis span. -/
  go : List MNode → Option String
  | [] => none
  | .emphasis cs :: _ => some (extractText (.emphasis cs))
  | _ :: rest => go rest

/-- The regex metacharacter `.` matches any character except the four
JavaScript line terminators. -/
def isDotChar (c : Char) : Bool :=
  !(c = '\n' || c = '\r' || c = '\u2028' || c = '\u2029')

/-- Model of the JavaScript regular-expression match
`text.match(/^\{(.+)\}$/)`: the whole text must start with a brace and
end with a brace, with at least one character and no line terminator in
between; the greedy capture is everything between the outermost two
characters, no matter how many further braces it contains. -/
def matchBracePair (s : String) : Option String :=
  match s.data with
  | '{' :: rest =>
    if rest.getLast? = some '}' then
      let mid := rest.dropLast
      if mid.isEmpty then none
      else if mid.all isDotChar then
        some (String.mk mid)
      else none
    else none
  | _ => none

/-- Word-character test for the regex class `\w`. -/
def isWordChar (c : Char) : Bool :=
  c.isAlphanum || c = '_'


/-- Model of the assignment regular-expression match
`text.match(/^(\w+)\s*(\+|\-|\*|\/)?=\s*(.+)$/)`: a non-empty maximal
word-character prefix, optional whitespace, an optional compound
operator, `=`, optional whitespace, and a non-empty remainder free of
line terminators.  (Backtracking cannot produce any other parse: a
shorter `\w+` prefix would leave a word character where the operator or
`=` must match.) -/
def matchAssignment (s : String) : Option (String × Option String × String) :=
  let cs := s.data
  let w := cs.takeWhile isWordChar
  if w.isEmpty then none
  else
    let afterW := (cs.dropWhile isWordChar).dropWhile isSpaceChar
    match afterW with
    | '=' :: r => finish w none r
    | '+' :: '=' :: r => finish w (some "+") r
    | '-' :: '=' :: r => finish w (some "-") r
    | '*' :: '=' :: r => finish w (some "*") r
    | '/' :: '=' :: r => finish w (some "/") r
    | _ => none
where
  /-- Trim the whitespace after `=` and require a line-break-free,
  non-empty remainder for the `(.+)$` group. -/
  finish (w : List Char) (op : Option String) (r : List Char) :
      Option (String × Option String × String) :=
    let rest := r.dropWhile isSpaceChar
    if rest.isEmpty then none
    else if rest.all isDotChar then
      some (String.mk w, op, String.mk rest)
    else none

/-- The brace-matching scan of `parseTemplateLiteral`: consume characters
while tracking the brace depth; report whether a matching close brace was
found, the characters before it, and the remainder after it. -/
def scanToClose : Nat → List Char → Bool × List Char × List Char
  | _, [] => (false, [], [])
  | count, c :: rest =>
    let count' := if c = '{' then count + 1 else if c = '}' then count - 1 else count
    if count' = 0 then (true, [], rest)
    else
      let r := scanToClose count' rest
      (r.1, c :: r.2.1, r.2.2)

/-- The worker loop of `parseTemplateLiteral`
(src/parser/mdast-to-program.js lines 94-129): split the text into
alternating literal and expression parts.  An unterminated brace group at
the end of the text reproduces the `slice(i + 1, j - 1)` behaviour of the
source, which drops the final character.  The transform is parametric in
`pe`, the external expression parser `parseExpression` (whose source file
is not part of the corpus).  The fuel argument only bounds the recursion:
every step consumes at least one character, so `length + 1` units always
suffice and the fuel-exhaustion arm (which flushes the pending literal
exactly like the end of input) is unreachable from
`parseTemplateLiteral`. -/
def parseTLAux (pe : String → Expr) : Nat → List Char → List Char → List TPart
  | 0, current, _ => if current.isEmpty then [] else [.literal (String.mk current)]
  | _ + 1, current, [] => if current.isEmpty then [] else [.literal (String.mk current)]
  | f + 1, current, '{' :: rest =>
    let pre : List TPart := if current.isEmpty then [] else [.literal (String.mk current)]
    let scanned := scanToClose 1 rest
    let exprText := if scanned.1 then scanned.2.1 else scanned.2.1.dropLast
    pre ++ (.expr (pe (String.mk exprText)) :: parseTLAux pe f [] scanned.2.2)
  | f + 1, current, c :: rest => parseTLAux pe f (current ++ [c]) rest

/-- `parseTemplateLiteral` applied to a whole text. -/
def parseTemplateLiteral (pe : String → Expr) (text : String) : List TPart :=
  parseTLAux pe (text.data.length + 1) [] text.data

/-- Split a character list at every occurrence of a separator character
(JavaScript `String.prototype.split` with a single-character
separator). -/
def splitOnChar (sep : Char) : List Char → List (List Char)
  | [] => [[]]
  | c :: rest =>
    match splitOnChar sep rest with
    | h :: t => if c = sep then [] :: h :: t else (c :: h) :: t
    | [] => if c = sep then [[], []] else [[c]]

/-- Split a link target at its first `#` (JavaScript `indexOf`/`slice`):
`none` when the character does not occur. -/
def splitAtFirstHash : List Char → Option (List Char × List Char)
  | [] => none
  | c :: rest =>
    if c = '#' then some ([], rest)
    else
      match splitAtFirstHash rest with
      | some (before, after) => some (c :: before, after)
      | none => none

/-- `parseParagraph` (src/parser/mdast-to-program.js lines 134-209):
classify a paragraph as a Print (sole strong child), a Call (sole link
child) or an Assignment (regex match on the flattened text); anything
else is silently dropped. -/
def parseParagraph (pe : String → Expr) (node : MNode) : Option Stmt :=
  match nodeChildren node with
  | [.strong sc] =>
    let strongText := extractText (.strong sc)
    (match matchBracePair strongText with
     | some inner => some (.print (pe inner))
     | none =>
       if strongText.data.contains '{' && strongText.data.contains '}' then
         some (.print (.template (parseTemplateLiteral pe strongText)))
       else
         some (.print (.lit (.str strongText))))
  | [.link url lc] =>
    let argsText := extractText (.link url lc)
    let args :=
      if argsText = "" then []
      else (splitOnChar ',' argsText.data).map (fun a => pe (jsTrim (String.mk a)))
    (match url.data with
     | '#' :: rest => some (.callStmt (String.mk rest) none args)
     | _ =>
       match splitAtFirstHash url.data with
       | some (before, after) =>
         some (.callStmt (String.mk after) (some (String.mk before)) args)
       | none => some (.callStmt url none args))
  | _ =>
    match matchAssignment (extractText node) with
    | some (varName, op, valueStr) => some (.assign varName op (pe valueStr))
    | none => none

/-- Transform state of `mdastToProgram`: the program built so far, the
name of the function currently being built (`currentFunction` aliases the
entry registered under that name), and the current block expressed as a
path into that function's body (`none` mirrors the `null` initial value;
`some []` is the function's top-level body; `some (i :: p)` descends into
the body of the conditional at index `i`). -/
structure TState where
  functions : List (String × FunctionDecl)
  currentFunction : Option String
  currentBlock : Option (List Nat)

/-- Append a statement to the block reached by a path (the `push` on the
aliased `currentBlock` array of the source): an index step descends into
the body of the conditional at that index; a path into anything else is
dead (it cannot arise, and leaves the list unchanged). -/
def pushStmtAt : List Stmt → List Nat → Stmt → List Stmt
  | stmts, [], s => stmts ++ [s]
  | [], _ :: _, _ => []
  | .conditional c body :: rest, 0 :: p, s => .conditional c (pushStmtAt body p s) :: rest
  | other :: rest, 0 :: _, _ => other :: rest
  | x :: xs, (n + 1) :: p, s => x :: pushStmtAt xs (n :: p) s

/-- One step of the `mdastToProgram` top-level loop
(src/parser/mdast-to-program.js lines 15-57), handling a single
structural node.  Nodes matching no branch — blockquotes included — are
ignored.  Note that the level-2 heading branch pushes the new
conditional onto `currentFunction.body`, the function's top-level body,
and only then retargets `currentBlock` at the conditional's own body. -/
def stepNode (pe : String → Expr) (st : TState) (node : MNode) : TState :=
  match node with
  | .heading 1 cs =>
    let funcName := extractText (.heading 1 cs)
    { functions := upsertA st.functions funcName
        { name := funcName, parameters := [], body := [] }
      currentFunction := some funcName
      currentBlock := some [] }
  | .heading 2 cs =>
    (match st.currentFunction with
     | none => st
     | some fname =>
       match extractEmphasisText (.heading 2 cs) with
       | none => st
       | some conditionText =>
         if conditionText = "" then st
         else
           match alookup st.functions fname with
           | none => st
           | some fn =>
             let conditional : Stmt := .conditional (pe conditionText) []
             { st with
               functions := upsertA st.functions fname
                 { fn with body := fn.body ++ [conditional] }
               currentBlock := some [fn.body.length] })
  | .list ordered items =>
    if ordered then st
    else
      (match st.currentFunction with
       | none => st
       | some fname =>
         match alookup st.functions fname with
         | none => st
         | some fn =>
           { st with
             functions := upsertA st.functions fname
               { fn with parameters := fn.parameters ++ items.map extractText } })
  | .paragraph cs =>
    (match st.currentBlock with
     | none => st
     | some path =>
       match parseParagraph pe (.paragraph cs) with
       | none => st
       | some stmt =>
         match st.currentFunction with
         | none => st
         | some fname =>
           match alookup st.functions fname with
           | none => st
           | some fn =>
             { st with
               functions := upsertA st.functions fname
                 { fn with body := pushStmtAt fn.body path stmt } })
  | .thematicBreak =>
    (match st.currentFunction with
     | none => st
     | some fname =>
       let st' :=
         match st.currentBlock with
         | none => st
         | some path =>
           match alookup st.functions fname with
           | none => st
           | some fn =>
             { st with
               functions := upsertA st.functions fname
                 { fn with body := pushStmtAt fn.body path .breakStmt } }
       { st' with currentBlock := some [] })
  | _ => st

/-- `mdastToProgram`: fold the transform step over the document's
top-level children, starting from an empty program with no current
function and no current block. -/
def mdastToProgram (pe : String → Expr) (children : List MNode) : Program :=
  { functions := (children.foldl (stepNode pe)
      { functions := [], currentFunction := none, currentBlock := none }).functions }

/-- A concrete stand-in for the external expression parser
`parseExpression` (src/parser/expression-parser.js is not part of the
corpus): wrap the raw text as an identifier node.  Structural claims
about the transform are proved for every parser `pe`; this stand-in only
instantiates them in closed counterexamples and witnesses. -/
def peStub : String → Expr := Expr.ident

/-- An external-resolution environment with no external files at all. -/
def noExt : String → Option Program := fun _ => none

/-- A function that prints a marker string (callee of the tail-call
counterexample). -/
def gFn : FunctionDecl :=
  { name := "g", parameters := [], body := [.print (.lit (.str "in g"))] }

/-- Entry function whose first statement is a conditional (guard `1`,
always truthy) ending in a call to `g`, followed by a further print:
the conditional is not the last statement of the function body, so the
claimed tail-position rule says the call must run inline and the final
print must still execute. -/
def mainTailFn : FunctionDecl :=
  { name := "main", parameters := []
    body := [.conditional (.lit (.num 1)) [.callStmt "g" none []],
             .print (.lit (.str "after"))] }

/-- Program of the tail-call counterexample. -/
def progC1 : Program := { functions := [("main", mainTailFn), ("g", gFn)] }

/-- Document with two consecutive level-2 headings inside one function
and no thematic break between them (the nesting counterexample). -/
def docC2 : List MNode :=
  [.heading 1 [.text "main"],
   .heading 2 [.emphasis [.text "a"]],
   .heading 2 [.emphasis [.text "b"]]]

/-- Document with a blockquote inside a function (the input-statement
failing input). -/
def docC4 : List MNode :=
  [.heading 1 [.text "main"],
   .blockquote [.paragraph [.text "name"]]]

/-- A runtime with one frame binding only `y`, used to witness reads of
never-assigned variables. -/
def rtOneFrame : Runtime :=
  { callStack := [{ functionName := "main", vars := [("y", .num 7)] }]
    output := [], breakFlag := false, inputBuffer := [], inputIndex := 0 }

/-- A runtime with one empty frame and the break flag already set. -/
def rtBroken : Runtime :=
  { callStack := [{ functionName := "main", vars := [] }]
    output := [], breakFlag := true, inputBuffer := [], inputIndex := 0 }

/-- The function `main` holding a single conditional with body
`[Conditional a []]` (transform example). -/
def fnMainCondA : FunctionDecl :=
  { name := "main", parameters := [], body := [.conditional (.ident "a") []] }

/-- Sibling-conditionals shape actually produced by the transform for
`docC2`. -/
def fnMainSiblings : FunctionDecl :=
  { name := "main", parameters := []
    body := [.conditional (.ident "a") [], .conditional (.ident "b") []] }

/-- Nested-conditionals shape the claim predicts for `docC2`. -/
def fnMainNested : FunctionDecl :=
  { name := "main", parameters := []
    body := [.conditional (.ident "a") [.conditional (.ident "b") []]] }

/-- Transform state sitting inside the body of the first conditional of
`main`. -/
def stInsideCondA : TState :=
  { functions := [("main", fnMainCondA)]
    currentFunction := some "main"
    currentBlock := some [0] }

/-- A runtime about to read one buffered input inside a `main` frame. -/
def rtAwaitInput : Runtime :=
  { callStack := [{ functionName := "main", vars := [] }]
    output := [], breakFlag := false, inputBuffer := [.str "ans"], inputIndex := 0 }

/-- The runtime after the input statement has bound the read value. -/
def rtGotInput : Runtime :=
  { callStack := [{ functionName := "main", vars := [("v", .str "ans")] }]
    output := [], breakFlag := false, inputBuffer := [.str "ans"], inputIndex := 1 }

/-- Reading through an `upsertA` write of the same key sees the written
value (plain-object write-then-read). -/
theorem alookup_upsertA_self {α : Type} (m : List (String × α)) (k : String) (v : α) :
    alookup (upsertA m k v) k = some v := by
  induction m with
  | nil => simp [upsertA, alookup]
  | cons p rest ih =>
    obtain ⟨k', v'⟩ := p
    by_cases h : k' = k
    · simp [upsertA, h, alookup]
    · simp [upsertA, h, alookup, ih]

/-- Reading a different key through an `upsertA` write is unaffected. -/
theorem alookup_upsertA_ne {α : Type} (m : List (String × α)) (k x : String) (v : α)
    (h : x ≠ k) : alookup (upsertA m k v) x = alookup m x := by
  induction m with
  | nil => simp [upsertA, alookup, Ne.symm h]
  | cons p rest ih =>
    obtain ⟨k', v'⟩ := p
    by_cases hk : k' = k
    · subst hk
      simp [upsertA, alookup, Ne.symm h]
    · simp [upsertA, hk, alookup, ih]

/-- Binding construction leaves keys outside the parameter list alone. -/
theorem alookup_mkBindingsAux_not_mem (acc : List (String × Value))
    (params : List String) (args : List Value) (x : String) (h : x ∉ params) :
    alookup (mkBindingsAux acc params args) x = alookup acc x := by
  induction params generalizing acc args with
  | nil => simp [mkBindingsAux]
  | cons p ps ih =>
    have hx : x ≠ p := fun hh => h (hh ▸ List.mem_cons_self p ps)
    have hps : x ∉ ps := fun hh => h (List.mem_cons_of_mem p hh)
    cases args with
    | nil => rw [mkBindingsAux, ih _ _ hps, alookup_upsertA_ne _ _ _ _ hx]
    | cons a rest => rw [mkBindingsAux, ih _ _ hps, alookup_upsertA_ne _ _ _ _ hx]

/-- A key is present after an `upsertA` exactly when it is the written
key or was present before. -/
theorem alookup_upsertA_isSome {α : Type} (m : List (String × α)) (k x : String)
    (v : α) :
    (alookup (upsertA m k v) x).isSome ↔ x = k ∨ (alookup m x).isSome := by
  by_cases h : x = k
  · subst h; simp [alookup_upsertA_self]
  · simp [alookup_upsertA_ne _ _ _ _ h, h]

/-- A key is present in constructed bindings exactly when it is a
declared parameter or was present in the accumulator. -/
theorem alookup_mkBindingsAux_isSome (acc : List (String × Value))
    (params : List String) (args : List Value) (x : String) :
    (alookup (mkBindingsAux acc params args) x).isSome ↔
      x ∈ params ∨ (alookup acc x).isSome := by
  induction params generalizing acc args with
  | nil => simp [mkBindingsAux]
  | cons p ps ih =>
    cases args with
    | nil =>
      rw [mkBindingsAux, ih]
      simp [alookup_upsertA_isSome, List.mem_cons]
      tauto
    | cons a rest =>
      rw [mkBindingsAux, ih]
      simp [alookup_upsertA_isSome, List.mem_cons]
      tauto

/-- With distinct parameter names, the i-th parameter is bound to the
i-th argument, or to `undefined` past the end of the argument list. -/
theorem alookup_mkBindingsAux_get (acc : List (String × Value))
    (params : List String) (args : List Value) (i : Nat) (h : i < params.length)
    (hnd : params.Nodup) :
    alookup (mkBindingsAux acc params args) (params.get ⟨i, h⟩) =
      some (args.getD i .undef) := by
  induction params generalizing acc args i with
  | nil => simp at h
  | cons p ps ih =>
    have hnd' : ps.Nodup := (List.nodup_cons.mp hnd).2
    have hpn : p ∉ ps := (List.nodup_cons.mp hnd).1
    cases i with
    | zero =>
      cases args with
      | nil =>
        rw [mkBindingsAux]
        show alookup (mkBindingsAux (upsertA acc p Value.undef) ps []) p =
          some (List.getD [] 0 Value.undef)
        rw [alookup_mkBindingsAux_not_mem _ _ _ _ hpn, alookup_upsertA_self]
        simp
      | cons a rest =>
        rw [mkBindingsAux]
        show alookup (mkBindingsAux (upsertA acc p a) ps rest) p =
          some (List.getD (a :: rest) 0 Value.undef)
        rw [alookup_mkBindingsAux_not_mem _ _ _ _ hpn, alookup_upsertA_self]
        simp
    | succ j =>
      have hj : j < ps.length := Nat.lt_of_succ_lt_succ h
      cases args with
      | nil =>
        rw [mkBindingsAux]
        have := ih (upsertA acc p Value.undef) [] j hj hnd'
        simpa using this
      | cons a rest =>
        rw [mkBindingsAux]
        have := ih (upsertA acc p a) rest j hj hnd'
        simpa using this

/-- Arguments beyond the parameter count never influence the bindings. -/
theorem mkBindingsAux_take (acc : List (String × Value))
    (params : List String) (args : List Value) :
    mkBindingsAux acc params (args.take params.length) =
      mkBindingsAux acc params args := by
  induction params generalizing acc args with
  | nil => simp [mkBindingsAux]
  | cons p ps ih =>
    cases args with
    | nil => simp [mkBindingsAux]
    | cons a rest => simp [mkBindingsAux, ih]

/-- A block whose runtime already carries the break flag runs no
statement at all. -/
theorem executeBlock_break (f : Nat) (env : String → Option Program)
    (prog : Program) (stmts : List Stmt) (rt : Runtime) (h : rt.breakFlag = true) :
    executeBlock (f + 1) env prog stmts rt = .ok (none, rt) := by
  cases stmts with
  | nil => rfl
  | cons s rest => simp [executeBlock, h]

/-- Popping the frame just pushed restores the runtime exactly. -/
theorem popFrame_pushFrame (rt : Runtime) (n : String) (b : List (String × Value)) :
    (rt.pushFrame n b).popFrame = rt := rfl

/-- Trimming fixes any character list that opens with `{` and closes
with `}`. -/
theorem trimChars_brace (mid : List Char) :
    trimChars ('{' :: (mid ++ ['}'])) = '{' :: (mid ++ ['}']) := by
  have h1 : isSpaceChar '{' = false := rfl
  have h2 : isSpaceChar '}' = false := rfl
  simp [trimChars, List.dropWhile_cons, h1, h2]

/-- `jsTrim` fixes any brace-delimited string. -/
theorem jsTrim_brace (mid : List Char) :
    jsTrim (String.mk ('{' :: (mid ++ ['}']))) = String.mk ('{' :: (mid ++ ['}'])) := by
  simp [jsTrim, trimChars_brace]

/-- The flattened text of a strong span holding one text node is that
text, for trim-stable texts. -/
theorem extractText_strong_text (s : String) (h : jsTrim s = s) :
    extractText (.strong [.text s]) = s := by
  simp [extractText, extractTextList, h]

/-- The brace-pair regex matches every brace-delimited line-break-free
text and captures everything between the outermost braces. -/
theorem matchBracePair_brace (mid : List Char) (hne : mid ≠ [])
    (hnl : mid.all isDotChar = true) :
    matchBracePair (String.mk ('{' :: (mid ++ ['}']))) = some (String.mk mid) := by
  simp [matchBracePair, List.getLast?_concat, List.dropLast_concat, hne, hnl]

/-- The brace-pair regex cannot match a text missing one of the two
braces. -/
theorem matchBracePair_eq_none_of (s : String)
    (h : (s.data.contains '{' && s.data.contains '}') = false) :
    matchBracePair s = none := by
  cases hd : s.data with
  | nil => simp [matchBracePair, hd]
  | cons c rest =>
    by_cases hc : c = '{'
    · subst hc
      have h1 : s.data.contains '{' = true := by
        rw [hd]; simp
      rw [h1] at h
      simp at h
      have h3 : rest.getLast? ≠ some '}' := by
        intro hg
        have hmem : '}' ∈ rest := by
          obtain ⟨hne', he⟩ := List.mem_getLast?_eq_getLast (l := rest) (x := '}')
            (by rw [Option.mem_def, hg])
          exact he ▸ List.getLast_mem hne'
        exact h (by rw [hd]; exact List.mem_cons_of_mem _ hmem)
      simp [matchBracePair, hd, h3]
    · simp [matchBracePair, hd, hc]

/-- Claim C1, counterexample: in `progC1` the call to `g` is the last
statement of a conditional body whose Conditional is *not* the last
statement of `main`, so the claim requires the call to run inline and the
following print of `after` to execute; the interpreter instead
tail-dispatches the call and the run prints only `in g`, so the output is
not the claimed two-element sequence. -/
theorem tail_position_counterexample :
    interpret 20 noExt progC1 "main" [] [] = .ok [.str "in g"] ∧
    [Value.str "in g"] ≠ [Value.str "in g", Value.str "after"] :=
  ⟨rfl, by simp⟩

/-- Claim C1, amended: a Call is returned as a pending tail-call
descriptor exactly when it is the last statement of its *immediately*
enclosing block (whether or not that block's conditional is itself in
tail position): with the callee resolved and the arguments evaluated, a
last-position call yields the descriptor and a non-last call runs the
trampoline inline; a descriptor surfacing from any statement makes the
enclosing block return it at once, skipping the remaining statements;
and `executeConditional` ignores the tail-position flag it receives, so
a conditional body is always executed with its own final statement in
dispatch position. -/
theorem tail_dispatch_rule (f : Nat) (env : String → Option Program)
    (prog : Program) (name : String) (fn : FunctionDecl) (argEs : List Expr)
    (vs : List Value) (rt : Runtime) (hfn : prog.lookupFn name = some fn)
    (hargs : evalArgs argEs rt = .ok vs) :
    executeFunctionCall (f + 1) env prog name none argEs rt true =
      .ok (some ⟨prog, fn, vs⟩, rt) ∧
    executeFunctionCall (f + 1) env prog name none argEs rt false =
      (match trampoline f env prog fn vs rt with
       | .error e => .error e
       | .ok rt' => .ok (none, rt')) ∧
    (∀ (g : Nat) (s : Stmt) (rest : List Stmt) (rt₀ : Runtime) (tc : TailCall)
        (rt' : Runtime),
      rt₀.breakFlag = false →
      executeStatement g env prog s rt₀ rest.isEmpty = .ok (some tc, rt') →
      executeBlock (g + 1) env prog (s :: rest) rt₀ = .ok (some tc, rt')) ∧
    (∀ (g : Nat) (c : Expr) (body : List Stmt) (rt₀ : Runtime) (il : Bool),
      executeConditional g env prog c body rt₀ il =
        executeConditional g env prog c body rt₀ true) := by
  refine ⟨?_, ?_, ?_, ?_⟩
  · simp [executeFunctionCall, resolveCallee, hfn, hargs]
  · simp [executeFunctionCall, resolveCallee, hfn, hargs]
  · intro g s rest rt₀ tc rt' hbrk hstep
    simp [executeBlock, hbrk, hstep]
  · intro g c body rt₀ il
    cases g with
    | zero => rfl
    | succ g' => rfl

/-- Claim C1, witness for the amended rule at a concrete last-position
call. -/
theorem tail_dispatch_rule_witness :
    executeFunctionCall 1 noExt progC1 "g" none [] (Runtime.init []) true =
      .ok (some ⟨progC1, gFn, []⟩, Runtime.init []) :=
  (tail_dispatch_rule 0 noExt progC1 "g" gFn [] [] (Runtime.init []) rfl rfl).1

/-- Claim C2, counterexample: transforming `docC2` — a function heading
followed by two level-2 headings with no thematic break between them —
yields two sibling conditionals in the top-level body of `main`, not the
second conditional nested inside the first one's body as the claim
states. -/
theorem nested_conditional_counterexample :
    (mdastToProgram peStub docC2).lookupFn "main" = some fnMainSiblings ∧
    (mdastToProgram peStub docC2).lookupFn "main" ≠ some fnMainNested := by
  refine ⟨rfl, ?_⟩
  intro h
  rw [show (mdastToProgram peStub docC2).lookupFn "main" = some fnMainSiblings
      from rfl] at h
  simp [fnMainSiblings, fnMainNested] at h

/-- Claim C2, amended: a level-2 heading whose sole emphasized span
yields non-empty text appends its new Conditional to the *enclosing
function's top-level body* — not to the current block — and then
retargets the current block at the new conditional's own (empty) body;
in particular the functions built are independent of what the current
block was, so a second level-2 heading inside a conditional produces a
sibling at function level rather than a nested conditional. -/
theorem conditional_heading_targets_function_body (pe : String → Expr)
    (st : TState) (cs : List MNode) (fname : String) (fn : FunctionDecl)
    (conditionText : String)
    (hcur : st.currentFunction = some fname)
    (hfn : alookup st.functions fname = some fn)
    (htext : extractEmphasisText (.heading 2 cs) = some conditionText)
    (hne : conditionText ≠ "") :
    stepNode pe st (.heading 2 cs) =
      { functions := upsertA st.functions fname
          { fn with body := fn.body ++ [.conditional (pe conditionText) []] }
        currentFunction := some fname
        currentBlock := some [fn.body.length] } ∧
    (∀ path path' : Option (List Nat),
      (stepNode pe { st with currentBlock := path } (.heading 2 cs)).functions =
        (stepNode pe { st with currentBlock := path' } (.heading 2 cs)).functions) := by
  constructor
  · simp [stepNode, hcur, htext, hne, hfn]
  · intro path path'
    simp [stepNode, hcur, htext, hne, hfn]

/-- Claim C2, witness: stepping a second conditional heading while the
current block is inside the first conditional appends a sibling at
function level. -/
theorem conditional_heading_targets_function_body_witness :
    stepNode peStub stInsideCondA (.heading 2 [.emphasis [.text "b"]]) =
      { functions := [("main", fnMainSiblings)]
        currentFunction := some "main"
        currentBlock := some [1] } := by
  have := conditional_heading_targets_function_body peStub stInsideCondA
    [.emphasis [.text "b"]] "main" fnMainCondA "b" rfl rfl rfl (by decide)
  simpa [stInsideCondA, upsertA, fnMainCondA, fnMainSiblings] using this.1

/-- Claim C3: the break flag survives every frame pop — popping a frame
preserves it, a block whose runtime carries the flag stops before its
next statement (returning the runtime untouched), and a whole function
call made with the flag set runs nothing and returns with the flag still
set; the synchronous interpreter never invokes the flag-clearing
operations. -/
theorem break_flag_persists (f : Nat) (env : String → Option Program)
    (prog : Program) (stmts : List Stmt) (fn : FunctionDecl) (args : List Value)
    (rt : Runtime) (h : rt.breakFlag = true) :
    rt.popFrame.breakFlag = true ∧
    executeBlock (f + 1) env prog stmts rt = .ok (none, rt) ∧
    executeFunction (f + 2) env prog fn args rt = .ok (none, rt) := by
  refine ⟨h, executeBlock_break f env prog stmts rt h, ?_⟩
  have hpush : (rt.pushFrame fn.name (mkBindings fn.parameters args)).breakFlag =
    true := h
  rw [executeFunction, executeBlock_break f env prog fn.body _ hpush]
  rfl

/-- Claim C3, witness at a broken runtime with one frame. -/
theorem break_flag_persists_witness :
    rtBroken.popFrame.breakFlag = true ∧
    executeBlock 3 noExt progC1 [.print (.lit (.str "x"))] rtBroken =
      .ok (none, rtBroken) ∧
    executeFunction 4 noExt progC1 gFn [] rtBroken = .ok (none, rtBroken) :=
  break_flag_persists 2 noExt progC1 [.print (.lit (.str "x"))] gFn [] rtBroken rfl

/-- Claim C4: the transform has no branch for blockquote nodes — stepping
any blockquote leaves the transform state untouched, and the concrete
document `docC4` (a function followed by a blockquote naming a variable)
produces a function with an empty body instead of the claimed Input
statement — although the interpreter itself fully supports Input
statements, as the final conjunct shows by executing one. -/
theorem blockquote_produces_no_statement :
    (∀ (pe : String → Expr) (st : TState) (cs : List MNode),
        stepNode pe st (.blockquote cs) = st) ∧
    mdastToProgram peStub docC4 =
      { functions := [("main", { name := "main", parameters := [], body := [] })] } ∧
    executeStatement 1 noExt progC1 (.input "v") rtAwaitInput false =
      .ok (none, rtGotInput) :=
  ⟨fun _ _ _ => rfl, rfl, rfl⟩

/-- Claim C5, counterexample: the bold text made of the two brace pairs
of `a` and `b` separated by a space starts with a brace and ends with a
brace, so the source's anchored greedy regex matches it whole and the
print holds the bare parsed expression of the inner text (which itself
still contains braces) — not the Template of alternating parts the claim
requires for multi-pair texts. -/
theorem brace_pair_counterexample :
    parseParagraph peStub (.paragraph [.strong [.text "\x7ba\x7d \x7bb\x7d"]]) =
      some (.print (.ident "a\x7d \x7bb")) ∧
    some (Stmt.print (Expr.ident "a\x7d \x7bb")) ≠
      some (Stmt.print
        (.template (parseTemplateLiteral peStub "\x7ba\x7d \x7bb\x7d"))) := by
  refine ⟨rfl, ?_⟩
  intro h
  rw [show parseTemplateLiteral peStub "\x7ba\x7d \x7bb\x7d" =
      [.expr (.ident "a"), .literal " ", .expr (.ident "b")] from rfl] at h
  simp at h

/-- Claim C5, amended: a sole-strong paragraph yields a Print classified
as follows — if the (trim-stable) text starts with a brace and ends with
a brace with at least one line-break-free character between, the whole
middle (even spanning several brace groups) parses as one bare
Expression; otherwise, if the text contains both a `{` and a `}`, it
becomes a Template of alternating parts; otherwise it becomes a string
Literal. -/
theorem print_statement_classification (pe : String → Expr) :
    (∀ mid : List Char, mid ≠ [] → mid.all isDotChar = true →
      parseParagraph pe
          (.paragraph [.strong [.text (String.mk ('{' :: (mid ++ ['}'])))]]) =
        some (.print (pe (String.mk mid)))) ∧
    (∀ s : String, jsTrim s = s → matchBracePair s = none →
      s.data.contains '{' = true → s.data.contains '}' = true →
      parseParagraph pe (.paragraph [.strong [.text s]]) =
        some (.print (.template (parseTemplateLiteral pe s)))) ∧
    (∀ s : String, jsTrim s = s →
      (s.data.contains '{' && s.data.contains '}') = false →
      parseParagraph pe (.paragraph [.strong [.text s]]) =
        some (.print (.lit (.str s)))) := by
  refine ⟨?_, ?_, ?_⟩
  · intro mid hne hnl
    have hst : extractText (.strong [.text (String.mk ('{' :: (mid ++ ['}'])))]) =
        String.mk ('{' :: (mid ++ ['}'])) :=
      extractText_strong_text _ (jsTrim_brace mid)
    simp [parseParagraph, nodeChildren, hst, matchBracePair_brace mid hne hnl]
  · intro s htrim hnone hc1 hc2
    have hst : extractText (.strong [.text s]) = s := extractText_strong_text s htrim
    simp [parseParagraph, nodeChildren, hst, hnone, hc1, hc2]
    exact ⟨by simpa using hc1, by simpa using hc2⟩
  · intro s htrim hcontains
    have hst : extractText (.strong [.text s]) = s := extractText_strong_text s htrim
    simp [parseParagraph, nodeChildren, hst, matchBracePair_eq_none_of s hcontains,
      hcontains]
    simpa using hcontains

/-- Claim C5, witness: the three branches at the bold texts consisting
of a braced `x`, of `hi` followed by a braced `x`, and of plain
`hello`. -/
theorem print_statement_classification_witness :
    parseParagraph peStub (.paragraph [.strong [.text "\x7bx\x7d"]]) =
      some (.print (.ident "x")) ∧
    parseParagraph peStub (.paragraph [.strong [.text "hi \x7bx\x7d"]]) =
      some (.print (.template (parseTemplateLiteral peStub "hi \x7bx\x7d"))) ∧
    parseParagraph peStub (.paragraph [.strong [.text "hello"]]) =
      some (.print (.lit (.str "hello"))) :=
  ⟨by
    have := (print_statement_classification peStub).1 ['x'] (by decide) (by decide)
    simpa using this,
   (print_statement_classification peStub).2.1 "hi \x7bx\x7d" rfl rfl rfl rfl,
   (print_statement_classification peStub).2.2 "hello" rfl rfl⟩

/-- Claim C6: a callee frame is created with bindings whose keys are
exactly the declared parameter names, each distinct parameter mapped to
the caller-evaluated argument at its position (or `undefined` beyond the
argument list); reading a variable depends only on the current frame,
and writing one touches neither the rest of the stack nor any other
runtime component. -/
theorem frame_isolation :
    (∀ (params : List String) (args : List Value) (x : String),
        (alookup (mkBindings params args) x).isSome ↔ x ∈ params) ∧
    (∀ (params : List String) (args : List Value) (i : Nat) (h : i < params.length),
        params.Nodup →
        alookup (mkBindings params args) (params.get ⟨i, h⟩) =
          some (args.getD i .undef)) ∧
    (∀ (rt₁ rt₂ : Runtime) (x : String),
        rt₁.callStack.head? = rt₂.callStack.head? →
        rt₁.getVariable x = rt₂.getVariable x) ∧
    (∀ (rt : Runtime) (x : String) (v : Value),
        (rt.setVariable x v).callStack.tail = rt.callStack.tail ∧
        (rt.setVariable x v).output = rt.output ∧
        (rt.setVariable x v).breakFlag = rt.breakFlag) := by
  refine ⟨?_, ?_, ?_, ?_⟩
  · intro params args x
    rw [mkBindings, alookup_mkBindingsAux_isSome]
    simp [alookup]
  · intro params args i h hnd
    exact alookup_mkBindingsAux_get [] params args i h hnd
  · intro rt₁ rt₂ x hh
    simp [Runtime.getVariable, Runtime.currentFrame, hh]
  · intro rt x v
    cases hs : rt.callStack with
    | nil => simp [Runtime.setVariable, hs]
    | cons fr rest => simp [Runtime.setVariable, hs]

/-- Claim C6, witness: a concrete binding construction and a concrete
frame-local read. -/
theorem frame_isolation_witness :
    alookup (mkBindings ["a", "b"] [.num 1]) "b" = some .undef ∧
    rtOneFrame.getVariable "y" =
      ((Runtime.init []).pushFrame "main" [("y", Value.num 7)]).getVariable "y" :=
  ⟨by
    have := frame_isolation.2.1 ["a", "b"] [.num 1] 1 (by decide) (by decide)
    simpa using this,
   frame_isolation.2.2.1 rtOneFrame
     ((Runtime.init []).pushFrame "main" [("y", Value.num 7)]) "y" rfl⟩

/-- Claim C7: calling an undeclared function — locally or in a resolved
external program — fails immediately with the lookup error carrying the
missing name (before any argument is evaluated or any frame pushed), a
run whose entry function is absent fails with the entry error carrying
the entry name, and both rendered messages contain the missing name. -/
theorem missing_function_errors :
    (∀ (f : Nat) (env : String → Option Program) (prog : Program) (name : String)
        (argEs : List Expr) (rt : Runtime) (isLast : Bool),
        prog.lookupFn name = none →
        executeFunctionCall (f + 1) env prog name none argEs rt isLast =
          .error (.functionNotFound name)) ∧
    (∀ (f : Nat) (env : String → Option Program) (prog : Program)
        (name file : String) (extProg : Program) (argEs : List Expr) (rt : Runtime)
        (isLast : Bool),
        env file = some extProg → extProg.lookupFn name = none →
        executeFunctionCall (f + 1) env prog name (some file) argEs rt isLast =
          .error (.functionNotFoundIn name file)) ∧
    (∀ (fuel : Nat) (env : String → Option Program) (prog : Program)
        (entry : String) (args inputs : List Value),
        prog.lookupFn entry = none →
        interpret fuel env prog entry args inputs = .error (.entryNotFound entry)) ∧
    (∀ name : String, ∃ pre post : String,
        (Err.functionNotFound name).message = pre ++ (name ++ post)) ∧
    (∀ entry : String, ∃ pre post : String,
        (Err.entryNotFound entry).message = pre ++ (entry ++ post)) := by
  refine ⟨?_, ?_, ?_, ?_, ?_⟩
  · intro f env prog name argEs rt isLast h
    simp [executeFunctionCall, resolveCallee, h]
  · intro f env prog name file extProg argEs rt isLast henv h
    simp [executeFunctionCall, resolveCallee, henv, h]
  · intro fuel env prog entry args inputs h
    simp [interpret, h]
  · intro name
    exact ⟨"Function ", " not found", by simp [Err.message, String.append_assoc]⟩
  · intro entry
    exact ⟨"Entry function ", " not found", by simp [Err.message, String.append_assoc]⟩

/-- Claim C7, witness: a concrete undeclared local call and a concrete
missing entry function. -/
theorem missing_function_errors_witness :
    executeFunctionCall 1 noExt progC1 "nope" none [] (Runtime.init []) true =
      .error (.functionNotFound "nope") ∧
    interpret 5 noExt progC1 "start" [] [] = .error (.entryNotFound "start") :=
  ⟨missing_function_errors.1 0 noExt progC1 "nope" [] (Runtime.init []) true rfl,
   missing_function_errors.2.2.1 5 noExt progC1 "start" [] [] rfl⟩

/-- Claim C8: evaluating an Identifier never assigned in the current
frame (or with no frame at all) succeeds with the undefined value and
raises no error. -/
theorem unset_identifier_undefined (rt : Runtime) (name : String)
    (h : ∀ fr : Frame, rt.currentFrame = some fr → alookup fr.vars name = none) :
    evalE (.ident name) rt = .ok .undef := by
  have : rt.getVariable name = .undef := by
    rw [Runtime.getVariable]
    cases hs : rt.currentFrame with
    | none => rfl
    | some fr => simp [h fr hs]
  rw [evalE, this]

/-- Claim C8, witness: reading `x` in a frame binding only `y`. -/
theorem unset_identifier_undefined_witness :
    evalE (.ident "x") rtOneFrame = .ok .undef :=
  unset_identifier_undefined rtOneFrame "x"
    (fun fr hfr => by
      have : fr = { functionName := "main", vars := [("y", .num 7)] } := by
        cases hfr
        rfl
      rw [this]
      rfl)

/-- Claim C9: a compound assignment with any of the four operators whose
target is unset in the current frame defaults the missing current value
by the type of the evaluated right-hand side before applying the
operator — the default is `0` for a numeric right-hand side and the
empty string for a string one — so in particular `x += 1` with `x` never
set leaves `x` bound to `1`, and the new binding is readable in the
frame. -/
theorem compound_assignment_defaults (rt : Runtime) (x : String) (e : Expr)
    (fr : Frame) (hfr : rt.currentFrame = some fr)
    (hunset : alookup fr.vars x = none) :
    (∀ v : Value, evalE e rt = .ok v →
        executeAssignment x (some "+") e rt =
          .ok (rt.setVariable x (jsAdd (getDefaultValue v) v))) ∧
    (∀ v : Value, evalE e rt = .ok v →
        executeAssignment x (some "-") e rt =
          .ok (rt.setVariable x (jsSub (getDefaultValue v) v))) ∧
    (∀ v : Value, evalE e rt = .ok v →
        executeAssignment x (some "*") e rt =
          .ok (rt.setVariable x (jsMul (getDefaultValue v) v))) ∧
    (∀ v : Value, evalE e rt = .ok v →
        executeAssignment x (some "/") e rt =
          .ok (rt.setVariable x (jsDiv (getDefaultValue v) v))) ∧
    (∀ n : Int, getDefaultValue (.num n) = .num 0) ∧
    (∀ s : String, getDefaultValue (.str s) = .str "") ∧
    (∀ n : Int, evalE e rt = .ok (.num n) →
        executeAssignment x (some "+") e rt = .ok (rt.setVariable x (.num n))) ∧
    (∀ s : String, evalE e rt = .ok (.str s) →
        executeAssignment x (some "+") e rt = .ok (rt.setVariable x (.str s))) ∧
    (∀ v : Value, (rt.setVariable x v).getVariable x = v) := by
  have hget : rt.getVariable x = .undef := by
    simp [Runtime.getVariable, hfr, hunset]
  refine ⟨?_, ?_, ?_, ?_, ?_, ?_, ?_, ?_, ?_⟩
  · intro v he
    simp [executeAssignment, he, hget]
  · intro v he
    simp [executeAssignment, he, hget]
  · intro v he
    simp [executeAssignment, he, hget]
  · intro v he
    simp [executeAssignment, he, hget]
  · intro n
    rfl
  · intro s
    rfl
  · intro n he
    simp [executeAssignment, he, hget, getDefaultValue, jsAdd, toNumber]
  · intro s he
    simp [executeAssignment, he, hget, getDefaultValue, jsAdd, jsToString]
  · intro v
    have hstack : ∃ rest, rt.callStack = fr :: rest := by
      rw [Runtime.currentFrame] at hfr
      cases hcs : rt.callStack with
      | nil => rw [hcs] at hfr; simp at hfr
      | cons a b =>
        rw [hcs] at hfr
        simp at hfr
        exact ⟨b, by rw [hfr]⟩
    obtain ⟨rest, hcs⟩ := hstack
    simp [Runtime.setVariable, hcs, Runtime.getVariable, Runtime.currentFrame,
      alookup_upsertA_self]

/-- Claim C9, witness: with `x` never set, `x += 1` leaves `x` bound to
`1`, and each of the three other compound operators applies its
operation to the defaulted current value — `0 - 1`, `0 * 2`, and the
empty string for a string right-hand side of `/=`. -/
theorem compound_assignment_defaults_witness :
    executeAssignment "x" (some "+") (.lit (.num 1)) rtOneFrame =
      .ok (rtOneFrame.setVariable "x" (.num 1)) ∧
    executeAssignment "x" (some "-") (.lit (.num 1)) rtOneFrame =
      .ok (rtOneFrame.setVariable "x" (jsSub (getDefaultValue (.num 1)) (.num 1))) ∧
    executeAssignment "x" (some "*") (.lit (.num 2)) rtOneFrame =
      .ok (rtOneFrame.setVariable "x" (jsMul (getDefaultValue (.num 2)) (.num 2))) ∧
    executeAssignment "x" (some "/") (.lit (.str "a")) rtOneFrame =
      .ok (rtOneFrame.setVariable "x"
        (jsDiv (getDefaultValue (.str "a")) (.str "a"))) ∧
    (rtOneFrame.setVariable "x" (.num 1)).getVariable "x" = .num 1 :=
  ⟨(compound_assignment_defaults rtOneFrame "x" (.lit (.num 1))
      { functionName := "main", vars := [("y", .num 7)] } rfl rfl).2.2.2.2.2.2.1 1 rfl,
   (compound_assignment_defaults rtOneFrame "x" (.lit (.num 1))
      { functionName := "main", vars := [("y", .num 7)] } rfl rfl).2.1 (.num 1) rfl,
   (compound_assignment_defaults rtOneFrame "x" (.lit (.num 2))
      { functionName := "main", vars := [("y", .num 7)] } rfl rfl).2.2.1 (.num 2) rfl,
   (compound_assignment_defaults rtOneFrame "x" (.lit (.str "a"))
      { functionName := "main", vars := [("y", .num 7)] } rfl rfl).2.2.2.1
     (.str "a") rfl,
   (compound_assignment_defaults rtOneFrame "x" (.lit (.num 1))
      { functionName := "main", vars := [("y", .num 7)] } rfl rfl).2.2.2.2.2.2.2.2
     (.num 1)⟩

/-- Claim C10: a call with fewer arguments than parameters binds the
unmatched (distinct) parameters to `undefined` and the call itself
cannot fail on that account (an empty-bodied function returns cleanly
whatever the arity mismatch); surplus arguments are never bound —
bindings depend only on the first `parameters.length` arguments — yet
they are evaluated, since an evaluation error in any argument aborts the
call. -/
theorem arity_mismatch_tolerated :
    (∀ (params : List String) (args : List Value) (i : Nat) (h : i < params.length),
        params.Nodup → args.length ≤ i →
        alookup (mkBindings params args) (params.get ⟨i, h⟩) = some .undef) ∧
    (∀ (f : Nat) (env : String → Option Program) (prog : Program) (name : String)
        (params : List String) (args : List Value) (rt : Runtime),
        executeFunction (f + 2) env prog
          { name := name, parameters := params, body := [] } args rt =
          .ok (none, rt)) ∧
    (∀ (params : List String) (args : List Value),
        mkBindings params (args.take params.length) = mkBindings params args) ∧
    (∀ (f : Nat) (env : String → Option Program) (prog : Program) (name : String)
        (fn : FunctionDecl) (argEs : List Expr) (rt : Runtime) (er : Err),
        prog.lookupFn name = some fn → evalArgs argEs rt = .error er →
        executeFunctionCall (f + 1) env prog name none argEs rt true = .error er) := by
  refine ⟨?_, ?_, ?_, ?_⟩
  · intro params args i h hnd hlen
    rw [mkBindings, alookup_mkBindingsAux_get [] params args i h hnd,
      List.getD_eq_default _ _ hlen]
  · intro f env prog name params args rt
    have hblk : executeBlock (f + 1) env prog []
        (rt.pushFrame name (mkBindings params args)) =
        .ok (none, rt.pushFrame name (mkBindings params args)) := rfl
    simp [executeFunction, hblk, popFrame_pushFrame]
  · intro params args
    exact mkBindingsAux_take [] params args
  · intro f env prog name fn argEs rt er hfn har
    simp [executeFunctionCall, resolveCallee, hfn, har]

/-- Claim C10, witness: two parameters against one argument, an
empty-bodied call with surplus arguments, and the take-invariance of
bindings at a concrete overlong argument list. -/
theorem arity_mismatch_tolerated_witness :
    alookup (mkBindings ["p", "q"] [.num 1]) "q" = some .undef ∧
    executeFunction 7 noExt progC1
      { name := "h", parameters := ["p"], body := [] } [.num 1, .num 2]
      (Runtime.init []) = .ok (none, Runtime.init []) ∧
    mkBindings ["p"] ([Value.num 1, Value.num 2].take 1) =
      mkBindings ["p"] [Value.num 1, Value.num 2] :=
  ⟨by
    have := arity_mismatch_tolerated.1 ["p", "q"] [.num 1] 1 (by decide) (by decide)
      (by decide)
    simpa using this,
   arity_mismatch_tolerated.2.1 5 noExt progC1 "h" ["p"] [.num 1, .num 2]
     (Runtime.init []),
   arity_mismatch_tolerated.2.2.1 ["p"] [.num 1, .num 2]⟩
